import Mathlib

/-!
Verification of the test-ledger bootstrap engine: a shallow embedding of
`x/vm/types/denom.go` and `testutil/integration/os/network/setup.go`,
followed by theorems settling the specification's claims about them.

Machine integers (`math.Int`, `sdkmath.LegacyDec`) are arbitrary-precision in
the source, so they are embedded as `Int`; `LegacyDec` is an 18-decimal
fixed-point value embedded as its integer mantissa (scale `10^18`).
-/

namespace EvmCosmos

/-! ## Decimal registry (`x/vm/types/denom.go`) -/

/-- `Decimals` represents the decimal representation of a Cosmos coin
(`type Decimals uint8`). -/
abbrev Decimals := Nat

/-- `SixDecimals` is the Decimals used for Cosmos coin with 6 decimals. -/
def SixDecimals : Decimals := 6

/-- `EighteenDecimals` is the Decimals used for Cosmos coin with 18 decimals. -/
def EighteenDecimals : Decimals := 18

/-- `Decimals.Validate`: ok for `SixDecimals` and `EighteenDecimals`, and an
`unsupported decimals` error otherwise. -/
def Decimals.Validate (d : Decimals) : Except String Unit :=
  if d = SixDecimals then Except.ok ()
  else if d = EighteenDecimals then Except.ok ()
  else Except.error ("received unsupported decimals: " ++ toString d)

/-- `Decimals.ConversionFactor`: the conversion factor between the Decimals
value and the 18 decimals representation. It performs no validation: any
value other than `SixDecimals` yields the factor 1. -/
def Decimals.ConversionFactor (d : Decimals) : Int :=
  if d = SixDecimals then 10 ^ 12 else 1

/-! ## String ordering

Go compares strings byte-wise lexicographically; UTF-8 byte order coincides
with code-point order, so the comparison is embedded as the lexicographic
order on the strings' character code points (Lean's own `String` order is
used nowhere, keeping every comparison kernel-computable). -/

/-- Lexicographic strict order on code-point lists. -/
def charListLt : List Char → List Char → Bool
  | [], [] => false
  | [], _ :: _ => true
  | _ :: _, [] => false
  | a :: as, b :: bs =>
    if a.toNat < b.toNat then true
    else if b.toNat < a.toNat then false
    else charListLt as bs

/-- Go `a < b` on strings. -/
def strLtB (a b : String) : Bool := charListLt a.data b.data

/-- Go `a <= b` on strings, i.e. `!(b < a)`. -/
def strLeB (a b : String) : Bool := !(strLtB b a)

/-- The ordering `strLeB` as a relation, for the sorting machinery. -/
def strLe (a b : String) : Prop := strLeB a b = true

instance : DecidableRel strLe := fun a b =>
  inferInstanceAs (Decidable (strLeB a b = true))

/-! ## Coins (`sdktypes.Coin` / `sdktypes.Coins`)

External collaborator types from the cosmos-sdk, embedded to the extent the
harness relies on them.  `Coins.Add` delegates to `safeAdd`, which requires
both operands to be sorted by denom (adjacent non-decreasing check), groups
all coins of both operands by denom, sums each group, drops zero-amount
results alltogether and returns the result sorted by denom; unsorted input
makes it panic, embedded as `Option.none`. -/

/-- A coin: a denom together with an arbitrary-precision integer amount. -/
structure Coin where
  Denom : String
  Amount : Int
deriving DecidableEq, Repr

/-- A bank balance (`banktypes.Balance`): a bech32 address string and coins. -/
structure Balance where
  Address : String
  Coins : List Coin
deriving DecidableEq, Repr

/-- Ordering of coins by denom, used by the coin-set representation. -/
def coinLe (a b : Coin) : Prop := strLe a.Denom b.Denom

instance : DecidableRel coinLe := fun a b =>
  inferInstanceAs (Decidable (strLe a.Denom b.Denom))

/-- `Coins.isSorted` of the cosmos-sdk: adjacent denoms are non-decreasing
(the check uses `>`, so duplicate denoms pass). -/
def coinsIsSorted : List Coin → Bool
  | [] => true
  | [_] => true
  | a :: b :: t => strLeB a.Denom b.Denom && coinsIsSorted (b :: t)

/-- Walk a coin list with the group currently being summed: extend the group
while the denom repeats, and emit it (unless its sum is zero) when the denom
changes. -/
def coalesceAux (cur : Coin) : List Coin → List Coin
  | [] => if cur.Amount = 0 then [] else [cur]
  | b :: t =>
    if cur.Denom = b.Denom then coalesceAux ⟨cur.Denom, cur.Amount + b.Amount⟩ t
    else (if cur.Amount = 0 then [] else [cur]) ++ coalesceAux b t

/-- Group adjacent coins of equal denom, summing their amounts, and drop the
groups whose summed amount is zero.  On a denom-sorted list this is exactly
the per-denom coalescing step of the cosmos-sdk `safeAdd`. -/
def coalesce : List Coin → List Coin
  | [] => []
  | a :: t => coalesceAux a t

/-- The cosmos-sdk `Coins.safeAdd` (hence `Coins.Add`): panics (`none`) unless
both operands pass `isSorted`; otherwise groups the coins of both operands by
denom, sums each group, drops zero results and returns the sorted outcome. -/
def safeAdd (coins coinsB : List Coin) : Option (List Coin) :=
  if coinsIsSorted coins && coinsIsSorted coinsB then
    some (coalesce (List.insertionSort coinLe (coins ++ coinsB)))
  else none

/-- The loop of `calculateTotalSupply`: fold `Coins.Add` over the balances. -/
def calcSupplyAux (acc : List Coin) : List Balance → Option (List Coin)
  | [] => some acc
  | b :: rest =>
    match safeAdd acc b.Coins with
    | none => none
    | some acc1 => calcSupplyAux acc1 rest

/-- `calculateTotalSupply` calculates the total supply from the given
balances, starting from the empty coin set `sdktypes.NewCoins()`. -/
def calculateTotalSupply (fundedAccountsBalances : List Balance) : Option (List Coin) :=
  calcSupplyAux [] fundedAccountsBalances

/-! ## Address strings

The account/validator address types are byte strings; their `String()`
method and the reverse raw cast are what the claims depend on. -/

/-- The bytes of a Go string (for the ASCII strings this harness builds the
UTF-8 bytes coincide with the characters' code points). -/
def stringBytes (s : String) : List Nat := s.data.map Char.toNat

/-- Hex rendering of one byte as two characters. -/
def byteHexChars (b : Nat) : List Char :=
  [Nat.digitChar (b / 16 % 16), Nat.digitChar (b % 16)]

/-- Modelled from the spec: `sdktypes.AccAddress.String()` — the bech32
encoding of the raw address bytes under the example chain's account prefix
(external cosmos-sdk code).  Like bech32, it renders the address as a
human-readable prefix followed by a data part strictly longer than the raw
bytes; the exact character alphabet is immaterial to the claims, so the data
part is modelled as two hex digits per byte. -/
def accAddressString (a : List Nat) : String :=
  String.mk ("evmos1".data ++ (a.map byteHexChars).flatten)

/-- Modelled from the spec: `sdktypes.ValAddress.String()` — the bech32
encoding of the raw validator operator address bytes (external cosmos-sdk
code), modelled like `accAddressString` with the validator-operator prefix. -/
def valAddressString (a : List Nat) : String :=
  String.mk ("evmosvaloper1".data ++ (a.map byteHexChars).flatten)

/-- Modelled from the spec:
`authtypes.NewModuleAddress(stakingtypes.BondedPoolName).String()` — the
bech32 address of the bonded-pool module account (external auth-module code
deriving the address bytes as a digest of the module name; the exact digest
bytes are immaterial to the claims, so the name's own bytes stand in). -/
def bondedPoolAddress : String :=
  accAddressString (stringBytes "bonded_tokens_pool")

/-- `addBondedModuleAccountToFundedBalances` adds the bonded amount to the
bonded pool module account and includes it in the funded accounts. -/
def addBondedModuleAccountToFundedBalances
    (fundedAccountsBalances : List Balance) (totalBonded : Coin) : List Balance :=
  fundedAccountsBalances ++ [{ Address := bondedPoolAddress, Coins := [totalBonded] }]

/-! ## Specification-side coin arithmetic -/

/-- The total amount a coin list holds in denom `d`. -/
def amountOf (coins : List Coin) (d : String) : Int :=
  (coins.map (fun c => if c.Denom = d then c.Amount else 0)).sum

/-- The total amount of denom `d` across all the given account balances. -/
def sumBalances (bals : List Balance) (d : String) : Int :=
  (bals.map (fun b => amountOf b.Coins d)).sum

/-! ## Balance builder (`createBalances`, `getAccAddrsFromBalances`) -/

/-- Raw account address bytes (`sdktypes.AccAddress` is a byte string). -/
abbrev AccAddress := List Nat

/-- Go map access `denomDecimals[denom]`: the stored value, or the zero value
of `Decimals` when the key is absent. -/
def lookupDecimals (m : List (String × Decimals)) (k : String) : Decimals :=
  match m.find? (fun p => p.1 = k) with
  | some p => p.2
  | none => 0

/-- Modelled from the spec: the base token count every prefunded account
holds of each denom, before per-denom scaling. -/
def PrefundedAccountInitialBalance : Int := 10 ^ 18

/-- Modelled from the spec: `GetInitialAmount(d)` (repository code outside the
provided sources) — the initial account balance for a denom of decimals `d`:
the same base token count for every denom, independently scaled by that
denom's own conversion factor (spec §4.3, §8: "1 unit" of a 6-decimals denom
is `10^12` actual units, of an 18-decimals denom `1` actual unit). -/
def GetInitialAmount (d : Decimals) : Int :=
  PrefundedAccountInitialBalance * d.ConversionFactor

/-- `createBalances` creates balances for the given accounts and denoms: the
denom names of the mapping are sorted (`slices.Sort` on `maps.Keys`), one
coin per denom is built with that denom's scaled initial amount, and every
account receives that same coin list under its bech32 address string. -/
def createBalances (accounts : List AccAddress)
    (denomDecimals : List (String × Decimals)) : List Balance :=
  let denoms := List.insertionSort strLe (denomDecimals.map Prod.fst)
  let coins := denoms.map
    (fun denom => Coin.mk denom (GetInitialAmount (lookupDecimals denomDecimals denom)))
  accounts.map (fun acc => { Address := accAddressString acc, Coins := coins })

/-- `getAccAddrsFromBalances` returns the account addresses of the given
balances: each address is the raw cast `sdktypes.AccAddress(balance.Address)`
of the balance's address string, i.e. the string's bytes. -/
def getAccAddrsFromBalances (balances : List Balance) : List AccAddress :=
  balances.map (fun balance => stringBytes balance.Address)

/-! ## Validator/staking builder -/

/-- A consensus validator (`cmttypes.Validator`): raw address bytes and an
ed25519 public key, embedded as the key's bytes (the only key type the
harness's mock validators produce). -/
structure TmValidator where
  Address : List Nat
  PubKey : List Nat
deriving DecidableEq, Repr

/-- An 18-decimal fixed-point `sdkmath.LegacyDec`, embedded as its integer
mantissa at scale `10^18`. -/
abbrev LegacyDec := Int

/-- `sdkmath.LegacyNewDecWithPrec i prec = i / 10^prec` as a mantissa. -/
def LegacyNewDecWithPrec (i : Int) (prec : Nat) : LegacyDec :=
  i * 10 ^ (18 - prec)

/-- `sdkmath.LegacyOneDec()`. -/
def LegacyOneDec : LegacyDec := 10 ^ 18

/-- `stakingtypes.CommissionRates` as built by `stakingtypes.NewCommission`. -/
structure Commission where
  Rate : LegacyDec
  MaxRate : LegacyDec
  MaxChangeRate : LegacyDec
deriving DecidableEq, Repr

/-- `stakingtypes.BondStatus`. -/
inductive BondStatus where
  | Unspecified
  | Unbonded
  | Unbonding
  | Bonded
deriving DecidableEq, Repr

/-- A staking validator record (`stakingtypes.Validator`), with the fields
`createStakingValidator` populates; `UnbondingTime` is Unix nanoseconds. -/
structure Validator where
  OperatorAddress : String
  ConsensusPubkey : List Nat
  Jailed : Bool
  Status : BondStatus
  Tokens : Int
  DelegatorShares : LegacyDec
  Description : String
  UnbondingHeight : Int
  UnbondingTime : Int
  Commission : Commission
  MinSelfDelegation : Int
deriving DecidableEq, Repr

/-- Modelled from the spec: `cryptocodec.FromTmPubKeyInterface` (external
cosmos-sdk codec).  It fails only on unsupported key types; the harness's
mock validators carry ed25519 keys, which always convert, so on this key
universe the conversion succeeds and preserves the key bytes. -/
def FromTmPubKeyInterface (pk : List Nat) : Except String (List Nat) :=
  Except.ok pk

/-- Modelled from the spec: `codectypes.NewAnyWithValue` (external cosmos-sdk
codec) — packs the converted key into an `Any`; it succeeds on the key
values this harness produces, and the claims depend only on that. -/
def NewAnyWithValue (pk : List Nat) : Except String (List Nat) :=
  Except.ok pk

/-- `createStakingValidator` creates a staking validator from the given tm
validator and bonded amount: converted consensus key, operator address from
the tm validator's own address unless one is supplied, `Bonded` status, zero
unbonding height/time, zero minimum self delegation and the default 5%/20%/5%
commission. -/
def createStakingValidator (val : TmValidator) (bondedAmt : Int)
    (operatorAddr : Option AccAddress) : Except String Validator := do
  let pk ← FromTmPubKeyInterface val.PubKey
  let pkAny ← NewAnyWithValue pk
  let opAddr :=
    match operatorAddr with
    | none => valAddressString val.Address
    | some a => valAddressString a
  let commission : Commission :=
    { Rate := LegacyNewDecWithPrec 5 2
      MaxRate := LegacyNewDecWithPrec 2 1
      MaxChangeRate := LegacyNewDecWithPrec 5 2 }
  return {
    OperatorAddress := opAddr
    ConsensusPubkey := pkAny
    Jailed := false
    Status := BondStatus.Bonded
    Tokens := bondedAmt
    DelegatorShares := LegacyOneDec
    Description := ""
    UnbondingHeight := 0
    UnbondingTime := 0
    Commission := commission
    MinSelfDelegation := 0 }

/-- The staking validator record `createStakingValidator` returns (named so
proofs can refer to it). -/
def stakingValidatorOf (val : TmValidator) (amt : Int) (op : Option AccAddress) :
    Validator :=
  { OperatorAddress :=
      match op with
      | none => valAddressString val.Address
      | some a => valAddressString a
    ConsensusPubkey := val.PubKey
    Jailed := false
    Status := BondStatus.Bonded
    Tokens := amt
    DelegatorShares := LegacyOneDec
    Description := ""
    UnbondingHeight := 0
    UnbondingTime := 0
    Commission := ⟨LegacyNewDecWithPrec 5 2, LegacyNewDecWithPrec 2 1,
      LegacyNewDecWithPrec 5 2⟩
    MinSelfDelegation := 0 }

/-- The outcome of a Go call that may return a value, return an error, or
panic. -/
inductive GoResult (α : Type) where
  | ok (a : α)
  | err (e : String)
  | fatal (msg : String)
deriving DecidableEq, Repr

/-- The loop of `createStakingValidatorsWithRandomOperator`: build one
staking validator per tm validator, propagating the first error. -/
def createStakingValidatorsWithRandomOperator (tmValidators : List TmValidator)
    (bondedAmt : Int) : GoResult (List Validator) :=
  match tmValidators with
  | [] => GoResult.ok []
  | val :: rest =>
    match createStakingValidator val bondedAmt none with
    | Except.error e => GoResult.err e
    | Except.ok validator =>
      match createStakingValidatorsWithRandomOperator rest bondedAmt with
      | GoResult.ok validators => GoResult.ok (validator :: validators)
      | other => other

/-- The loop of `createStakingValidatorsWithSpecificOperator`, pairing each
tm validator with its operator address. -/
def specificOperatorLoop (bondedAmt : Int) :
    List TmValidator → List AccAddress → GoResult (List Validator)
  | [], _ => GoResult.ok []
  | _, [] => GoResult.ok []
  | val :: restVals, op :: restOps =>
    match createStakingValidator val bondedAmt (some op) with
    | Except.error e => GoResult.err e
    | Except.ok validator =>
      match specificOperatorLoop bondedAmt restVals restOps with
      | GoResult.ok validators => GoResult.ok (validator :: validators)
      | other => other

/-- `createStakingValidatorsWithSpecificOperator` creates staking validators
with the given operator addresses; it panics before building anything when
the operator count differs from the validator count. -/
def createStakingValidatorsWithSpecificOperator (tmValidators : List TmValidator)
    (bondedAmt : Int) (operatorsAddresses : List AccAddress) :
    GoResult (List Validator) :=
  if operatorsAddresses.length ≠ tmValidators.length then
    GoResult.fatal ("provided " ++ toString operatorsAddresses.length ++
      " validator operator keys but need " ++ toString tmValidators.length ++ "!")
  else specificOperatorLoop bondedAmt tmValidators operatorsAddresses

/-- `createStakingValidators` creates staking validators from the given tm
validators and bonded amounts. -/
def createStakingValidators (tmValidators : List TmValidator) (bondedAmt : Int)
    (operatorsAddresses : List AccAddress) : GoResult (List Validator) :=
  if operatorsAddresses.length = 0 then
    createStakingValidatorsWithRandomOperator tmValidators bondedAmt
  else
    createStakingValidatorsWithSpecificOperator tmValidators bondedAmt operatorsAddresses

/-! ## Module genesis registry and override application

`evmostypes.GenesisState` maps module names to serialized genesis blobs; the
blobs the claims touch are embedded structurally (a marshalled bank or auth
genesis, or an opaque payload for the generically-handled modules).  Override
values (`interface{}`) are embedded as a sum of the concrete types that can
reach the setters, each knowing its Go `%T` rendering. -/

/-- The bank module genesis (`banktypes.GenesisState`), with params and
metadata kept opaque. -/
structure BankGenesis where
  Params : String
  Balances : List Balance
  Supply : List Coin
  DenomMetadata : List String
  SendEnabled : List String
deriving DecidableEq, Repr

/-- The auth module genesis (`authtypes.GenesisState`), with params opaque
and accounts kept as opaque serialized entries. -/
structure AuthGenesis where
  Params : String
  Accounts : List String
deriving DecidableEq, Repr

/-- A serialized module genesis blob stored in the genesis mapping. -/
inductive GenBlob where
  | bank (g : BankGenesis)
  | auth (g : AuthGenesis)
  | raw (payload : String)
deriving DecidableEq, Repr

/-- `evmostypes.GenesisState`: module name to serialized blob. -/
abbrev GenesisState := List (String × GenBlob)

/-- Go map read `genesisState[mod]`. -/
def lookupGen (gs : GenesisState) (k : String) : Option GenBlob :=
  match gs.find? (fun p => p.1 = k) with
  | some p => some p.2
  | none => none

/-- Go map write `genesisState[mod] = blob`. -/
def setGen (gs : GenesisState) (k : String) (b : GenBlob) : GenesisState :=
  match gs with
  | [] => [(k, b)]
  | (k1, b1) :: rest => if k1 = k then (k, b) :: rest else (k1, b1) :: setGen rest k b

/-- A caller-supplied override value (`interface{}`): a typed pointer to a
module genesis, or any other value, each with its Go `%T` type rendering.
`modGen m p` stands for a pointer to the genesis type that module `m`'s
generic setter expects. -/
inductive OvVal where
  | bankGen (g : BankGenesis)
  | authGen (g : AuthGenesis)
  | modGen (modName : String) (payload : String)
  | other (typeName : String)
deriving DecidableEq, Repr

/-- The Go `%T` rendering of an override value. -/
def OvVal.typeName : OvVal → String
  | OvVal.bankGen _ => "*types.GenesisState"
  | OvVal.authGen _ => "*types.GenesisState"
  | OvVal.modGen m _ => "*" ++ m ++ "types.GenesisState"
  | OvVal.other t => t

/-- The module names carried by `genesisSetupFunctions`. -/
def genesisSetupModules : List String :=
  ["evm", "erc20", "gov", "feemarket", "distribution", "mint",
   "bank", "auth", "consensus", "capability"]

/-- `genStateSetter`: the generic setter for module `moduleName` type-asserts
the override to the module's genesis type; on success it marshals it into the
genesis mapping, otherwise it returns a nil mapping together with an invalid
type error naming the module and the received type. -/
def genStateSetter (moduleName : String) (genesisState : GenesisState)
    (customGenesis : OvVal) : GenesisState × Option String :=
  match customGenesis with
  | OvVal.modGen m payload =>
    if m = moduleName then (setGen genesisState moduleName (GenBlob.raw payload), none)
    else ([], some ("invalid type " ++ OvVal.typeName customGenesis ++ " for " ++
      moduleName ++ " module genesis state"))
  | v => ([], some ("invalid type " ++ OvVal.typeName v ++ " for " ++
      moduleName ++ " module genesis state"))

/-- The outcome of a setter call: the `(GenesisState, error)` pair it
returns, or a panic raised while it runs (`MustUnmarshalJSON` on a blob that
is not a bank/auth genesis, or `Coins.Add` on unsorted coins). -/
inductive SetterOutcome where
  | ret (genesisState : GenesisState) (e : Option String)
  | fatal (msg : String)
deriving DecidableEq, Repr

/-- `setBankGenesisState` updates the bank genesis state with the custom
genesis state: after the type assertion it unmarshals the current bank
genesis, appends the custom balances while adding their coins to the supply,
appends metadata and send-enabled entries, and overwrites the params. -/
def setBankGenesisState (genesisState : GenesisState) (customGenesis : OvVal) :
    SetterOutcome :=
  match customGenesis with
  | OvVal.bankGen customGen =>
    match lookupGen genesisState "bank" with
    | some (GenBlob.bank bankGen) =>
      let withBalances :=
        if customGen.Balances.isEmpty then some bankGen
        else
          let coins := (customGen.Balances.map Balance.Coins).flatten
          match safeAdd bankGen.Supply coins with
          | none => none
          | some supply =>
            some { bankGen with
                   Balances := bankGen.Balances ++ customGen.Balances
                   Supply := supply }
      match withBalances with
      | none => SetterOutcome.fatal "Coins must be sorted"
      | some bankGen1 =>
        let bankGen2 :=
          if customGen.DenomMetadata.isEmpty then bankGen1
          else { bankGen1 with DenomMetadata := bankGen1.DenomMetadata ++ customGen.DenomMetadata }
        let bankGen3 :=
          if customGen.SendEnabled.isEmpty then bankGen2
          else { bankGen2 with SendEnabled := bankGen2.SendEnabled ++ customGen.SendEnabled }
        let bankGen4 := { bankGen3 with Params := customGen.Params }
        SetterOutcome.ret (setGen genesisState "bank" (GenBlob.bank bankGen4)) none
    | _ => SetterOutcome.fatal "cannot unmarshal bank genesis state"
  | v => SetterOutcome.ret []
      (some ("invalid type " ++ OvVal.typeName v ++ " for bank module genesis state"))

/-- `setAuthGenesisState` updates the auth genesis state with the custom
genesis state: after the type assertion it unmarshals the current auth
genesis, appends the custom accounts and overwrites the params. -/
def setAuthGenesisState (genesisState : GenesisState) (customGenesis : OvVal) :
    SetterOutcome :=
  match customGenesis with
  | OvVal.authGen customGen =>
    match lookupGen genesisState "auth" with
    | some (GenBlob.auth authGen) =>
      let authGen1 :=
        if customGen.Accounts.isEmpty then authGen
        else { authGen with Accounts := authGen.Accounts ++ customGen.Accounts }
      let authGen2 := { authGen1 with Params := customGen.Params }
      SetterOutcome.ret (setGen genesisState "auth" (GenBlob.auth authGen2)) none
    | _ => SetterOutcome.fatal "cannot unmarshal auth genesis state"
  | v => SetterOutcome.ret []
      (some ("invalid type " ++ OvVal.typeName v ++ " for auth module genesis state"))

/-- Dispatch to the setter registered in `genesisSetupFunctions` for a
registered module name: the bank and auth modules have bespoke setters, the
consensus entry is an intentional no-op, and every other registered module
uses the generic `genStateSetter`. -/
def runGenesisSetup (moduleName : String) (genesisState : GenesisState)
    (customGenesis : OvVal) : SetterOutcome :=
  if moduleName = "bank" then setBankGenesisState genesisState customGenesis
  else if moduleName = "auth" then setAuthGenesisState genesisState customGenesis
  else if moduleName = "consensus" then SetterOutcome.ret genesisState none
  else
    match genStateSetter moduleName genesisState customGenesis with
    | (gs, e) => SetterOutcome.ret gs e

/-- `customizeGenesis` modifies the genesis state by the custom genesis
entries: for each module it looks up the registered setup function and runs
it, returning early with the setter's result on a reported error, and
panicking when a module name has no registered setup function. -/
def customizeGenesis (customGen : List (String × OvVal)) (genesisState : GenesisState) :
    SetterOutcome :=
  match customGen with
  | [] => SetterOutcome.ret genesisState none
  | (m, v) :: rest =>
    if genesisSetupModules.contains m then
      match runGenesisSetup m genesisState v with
      | SetterOutcome.fatal msg => SetterOutcome.fatal msg
      | SetterOutcome.ret gs (some e) => SetterOutcome.ret gs (some e)
      | SetterOutcome.ret gs none => customizeGenesis rest gs
    else
      SetterOutcome.fatal ("module " ++ m ++ " not found in genesis setup functions")

/-! ## Concrete inputs used by witnesses and counterexamples -/

/-- A one-account balance list used to witness the supply reconciliation. -/
def balsW : List Balance :=
  [{ Address := "acc1", Coins := [⟨"aatom", 5⟩, ⟨"uosmo", 7⟩] }]

/-- A bonded-pool coin used to witness the supply reconciliation. -/
def bondedW : Coin := ⟨"aatom", 3⟩

/-- A bank genesis blob installed as the prior `"bank"` entry. -/
def bankGen0 : BankGenesis :=
  { Params := "params0", Balances := [], Supply := [], DenomMetadata := [], SendEnabled := [] }

/-- A genesis mapping holding only the prior `"bank"` entry. -/
def gs0 : GenesisState := [("bank", GenBlob.bank bankGen0)]

/-- A concrete consensus validator. -/
def tmValC : TmValidator := { Address := [1], PubKey := [2] }

/-- The staking validator `createStakingValidator` builds from `tmValC` with
bonded amount 1 and no explicit operator. -/
def valC : Validator :=
  { OperatorAddress := valAddressString [1]
    ConsensusPubkey := [2]
    Jailed := false
    Status := BondStatus.Bonded
    Tokens := 1
    DelegatorShares := LegacyOneDec
    Description := ""
    UnbondingHeight := 0
    UnbondingTime := 0
    Commission := ⟨LegacyNewDecWithPrec 5 2, LegacyNewDecWithPrec 2 1, LegacyNewDecWithPrec 5 2⟩
    MinSelfDelegation := 0 }

/-- A concrete account list for the balance-builder witnesses. -/
def accW : List AccAddress := [[1, 2]]

/-- A concrete denom/decimals mapping, deliberately unsorted. -/
def ddW : List (String × Decimals) := [("uosmo", 18), ("aatom", 6)]

/-- The balance `createBalances accW ddW` produces. -/
def balW : Balance :=
  { Address := accAddressString [1, 2]
    Coins := [⟨"aatom", GetInitialAmount 6⟩, ⟨"uosmo", GetInitialAmount 18⟩] }

/-- A 20-byte account address, the length the cosmos-sdk uses. -/
def accT : AccAddress := List.range 20

/-! # Theorems

Helper lemmas about the embedded order and coin arithmetic come first, then
one theorem per claim (with its witness or counterexample). -/

theorem charListLt_irrefl : ∀ l, charListLt l l = false
  | [] => rfl
  | a :: as => by simp [charListLt, charListLt_irrefl as]

theorem charListLt_trans :
    ∀ a b c, charListLt a b = true → charListLt b c = true → charListLt a c = true := by
  intro a
  induction a with
  | nil =>
    intro b c hab hbc
    cases b with
    | nil => simp [charListLt] at hab
    | cons y ys =>
      cases c with
      | nil => simp [charListLt] at hbc
      | cons z zs => simp [charListLt]
  | cons x xs ih =>
    intro b c hab hbc
    cases b with
    | nil => simp [charListLt] at hab
    | cons y ys =>
      cases c with
      | nil => simp [charListLt] at hbc
      | cons z zs =>
        rw [charListLt] at hab hbc ⊢
        rcases Nat.lt_trichotomy x.toNat y.toNat with h1 | h1 | h1
        · rcases Nat.lt_trichotomy y.toNat z.toNat with h2 | h2 | h2
          · rw [if_pos (by omega)]
          · rw [if_pos (by omega)]
          · rw [if_neg (by omega), if_pos h2] at hbc
            exact absurd hbc (by simp)
        · rcases Nat.lt_trichotomy y.toNat z.toNat with h2 | h2 | h2
          · rw [if_pos (by omega)]
          · rw [if_neg (by omega), if_neg (by omega)] at hab
            rw [if_neg (by omega), if_neg (by omega)] at hbc
            rw [if_neg (by omega), if_neg (by omega)]
            exact ih ys zs hab hbc
          · rw [if_neg (by omega), if_pos h2] at hbc
            exact absurd hbc (by simp)
        · rw [if_neg (by omega), if_pos h1] at hab
          exact absurd hab (by simp)

theorem charListLt_eq_of_not :
    ∀ a b, charListLt a b = false → charListLt b a = false → a = b := by
  intro a
  induction a with
  | nil =>
    intro b hab _
    cases b with
    | nil => rfl
    | cons y ys => simp [charListLt] at hab
  | cons x xs ih =>
    intro b hab hba
    cases b with
    | nil => simp [charListLt] at hba
    | cons y ys =>
      rw [charListLt] at hab hba
      rcases Nat.lt_trichotomy x.toNat y.toNat with h1 | h1 | h1
      · rw [if_pos h1] at hab
        exact absurd hab (by simp)
      · have hx : x = y := Char.ext (UInt32.ext h1)
        subst hx
        rw [if_neg (by omega), if_neg (by omega)] at hab hba
        rw [ih ys hab hba]
      · rw [if_pos h1] at hba
        exact absurd hba (by simp)

theorem charListLt_asymm {a b : List Char} (h : charListLt a b = true) :
    charListLt b a = false := by
  by_contra h1
  have h2 : charListLt b a = true := by
    cases hba : charListLt b a with
    | false => exact absurd hba h1
    | true => rfl
  have := charListLt_trans a b a h h2
  rw [charListLt_irrefl a] at this
  exact absurd this (by simp)

theorem strEq_of_data {a b : String} (h : a.data = b.data) : a = b := by
  cases a; cases b; simp_all

theorem strLe_total (a b : String) : strLe a b ∨ strLe b a := by
  unfold strLe strLeB strLtB
  cases h : charListLt a.data b.data with
  | true => left; rw [charListLt_asymm h]; rfl
  | false => right; rfl

theorem strLe_trans {a b c : String} (h1 : strLe a b) (h2 : strLe b c) : strLe a c := by
  unfold strLe strLeB strLtB at h1 h2 ⊢
  cases hca : charListLt c.data a.data with
  | false => rfl
  | true =>
    exfalso
    have hba : charListLt b.data a.data = false := by
      cases hx : charListLt b.data a.data with
      | false => rfl
      | true => rw [hx] at h1; exact absurd h1 (by simp)
    have hcb : charListLt c.data b.data = false := by
      cases hx : charListLt c.data b.data with
      | false => rfl
      | true => rw [hx] at h2; exact absurd h2 (by simp)
    cases hbc : charListLt b.data c.data with
    | true =>
      have := charListLt_trans _ _ _ hbc hca
      rw [this] at hba
      exact absurd hba (by simp)
    | false =>
      have heq : b.data = c.data := charListLt_eq_of_not _ _ hbc hcb
      rw [heq] at hba
      rw [hca] at hba
      exact absurd hba (by simp)

theorem strLe_antisymm {a b : String} (h1 : strLe a b) (h2 : strLe b a) : a = b := by
  unfold strLe strLeB strLtB at h1 h2
  have hba : charListLt b.data a.data = false := by
    cases hx : charListLt b.data a.data with
    | false => rfl
    | true => rw [hx] at h1; exact absurd h1 (by simp)
  have hab : charListLt a.data b.data = false := by
    cases hx : charListLt a.data b.data with
    | false => rfl
    | true => rw [hx] at h2; exact absurd h2 (by simp)
  exact strEq_of_data (charListLt_eq_of_not _ _ hab hba)

theorem strLt_of_le_of_ne {a b : String} (h : strLe a b) (hne : a ≠ b) :
    strLtB a b = true := by
  unfold strLe strLeB strLtB at h
  unfold strLtB
  have hba : charListLt b.data a.data = false := by
    cases hx : charListLt b.data a.data with
    | false => rfl
    | true => rw [hx] at h; exact absurd h (by simp)
  cases hab : charListLt a.data b.data with
  | true => rfl
  | false => exact absurd (strEq_of_data (charListLt_eq_of_not _ _ hab hba)) hne

instance : IsTotal String strLe := ⟨strLe_total⟩

instance : IsTrans String strLe := ⟨fun _ _ _ => strLe_trans⟩

instance : IsTotal Coin coinLe := ⟨fun a b => strLe_total a.Denom b.Denom⟩

instance : IsTrans Coin coinLe := ⟨fun _ _ _ h1 h2 => strLe_trans h1 h2⟩

theorem amountOf_nil (d : String) : amountOf [] d = 0 := rfl

theorem amountOf_cons (c : Coin) (l : List Coin) (d : String) :
    amountOf (c :: l) d = (if c.Denom = d then c.Amount else 0) + amountOf l d := by
  simp [amountOf]

theorem amountOf_append (l1 l2 : List Coin) (d : String) :
    amountOf (l1 ++ l2) d = amountOf l1 d + amountOf l2 d := by
  simp [amountOf]

theorem amountOf_perm {l1 l2 : List Coin} (h : l1.Perm l2) (d : String) :
    amountOf l1 d = amountOf l2 d :=
  List.Perm.sum_eq (h.map _)

theorem coinsIsSorted_iff_pairwise :
    ∀ l : List Coin, coinsIsSorted l = true ↔ l.Pairwise coinLe
  | [] => by simp [coinsIsSorted]
  | [c] => by simp [coinsIsSorted]
  | a :: b :: t => by
    have ih := coinsIsSorted_iff_pairwise (b :: t)
    rw [coinsIsSorted, Bool.and_eq_true, ih]
    constructor
    · rintro ⟨hab, hp⟩
      refine List.Pairwise.cons ?_ hp
      intro x hx
      rcases List.mem_cons.mp hx with rfl | hxt
      · exact hab
      · exact strLe_trans hab ((List.pairwise_cons.mp hp).1 x hxt)
    · intro hp
      rcases List.pairwise_cons.mp hp with ⟨hr, hp1⟩
      exact ⟨hr b (by simp), hp1⟩

theorem amountOf_coalesceAux :
    ∀ (l : List Coin) (cur : Coin) (d : String),
      amountOf (coalesceAux cur l) d =
        (if cur.Denom = d then cur.Amount else 0) + amountOf l d := by
  intro l
  induction l with
  | nil =>
    intro cur d
    by_cases h : cur.Amount = 0
    · simp only [coalesceAux, h, reduceIte, amountOf_nil, amountOf_cons]
      split_ifs <;> omega
    · simp only [coalesceAux, h, reduceIte, amountOf_nil, amountOf_cons]
  | cons b t ih =>
    intro cur d
    rw [coalesceAux]
    by_cases h : cur.Denom = b.Denom
    · rw [if_pos h, ih]
      simp only [amountOf_cons]
      rw [h]
      split_ifs <;> omega
    · rw [if_neg h]
      by_cases hz : cur.Amount = 0
      · rw [if_pos hz]
        simp only [List.nil_append, amountOf_cons, ih]
        split_ifs <;> omega
      · rw [if_neg hz]
        simp only [List.singleton_append, amountOf_cons, ih]

theorem mem_coalesceAux :
    ∀ (l : List Coin) (cur c : Coin), c ∈ coalesceAux cur l →
      c.Denom = cur.Denom ∨ ∃ x ∈ l, c.Denom = x.Denom := by
  intro l
  induction l with
  | nil =>
    intro cur c hc
    by_cases h : cur.Amount = 0
    · rw [coalesceAux, if_pos h] at hc
      cases hc
    · rw [coalesceAux, if_neg h] at hc
      left
      rw [List.mem_singleton.mp hc]
  | cons b t ih =>
    intro cur c hc
    rw [coalesceAux] at hc
    by_cases h : cur.Denom = b.Denom
    · rw [if_pos h] at hc
      rcases ih _ c hc with h1 | ⟨x, hx, h2⟩
      · left
        exact h1
      · right
        exact ⟨x, by simp [hx], h2⟩
    · rw [if_neg h] at hc
      rcases List.mem_append.mp hc with h1 | h1
      · left
        by_cases hz : cur.Amount = 0
        · rw [if_pos hz] at h1
          cases h1
        · rw [if_neg hz] at h1
          rw [List.mem_singleton.mp h1]
      · rcases ih b c h1 with h2 | ⟨x, hx, h3⟩
        · right
          exact ⟨b, by simp, h2⟩
        · right
          exact ⟨x, by simp [hx], h3⟩

theorem pairwise_coalesceAux :
    ∀ (l : List Coin) (cur : Coin),
      (cur :: l).Pairwise coinLe → (coalesceAux cur l).Pairwise coinLe := by
  intro l
  induction l with
  | nil =>
    intro cur _
    by_cases h : cur.Amount = 0 <;> simp [coalesceAux, h]
  | cons b t ih =>
    intro cur hp
    rw [coalesceAux]
    rcases List.pairwise_cons.mp hp with ⟨hcur, hbt⟩
    by_cases h : cur.Denom = b.Denom
    · rw [if_pos h]
      apply ih
      refine List.Pairwise.cons ?_ ((List.pairwise_cons.mp hbt).2)
      intro x hx
      exact hcur x (by simp [hx])
    · rw [if_neg h]
      have hrest := ih b hbt
      have hcle : ∀ c ∈ coalesceAux b t, coinLe cur c := by
        intro c hc
        rcases mem_coalesceAux t b c hc with h1 | ⟨x, hx, h2⟩
        · show strLe cur.Denom c.Denom
          rw [h1]
          exact hcur b (by simp)
        · show strLe cur.Denom c.Denom
          rw [h2]
          exact hcur x (by simp [hx])
      by_cases hz : cur.Amount = 0
      · rw [if_pos hz]
        simpa using hrest
      · rw [if_neg hz]
        simp only [List.singleton_append]
        exact List.Pairwise.cons hcle hrest

theorem pairwise_coalesce {l : List Coin} (h : l.Pairwise coinLe) :
    (coalesce l).Pairwise coinLe := by
  cases l with
  | nil => simp [coalesce]
  | cons a t => exact pairwise_coalesceAux t a h

theorem amountOf_coalesce (l : List Coin) (d : String) :
    amountOf (coalesce l) d = amountOf l d := by
  cases l with
  | nil => rfl
  | cons a t => rw [coalesce, amountOf_coalesceAux, amountOf_cons]

theorem safeAdd_ok {a b : List Coin} (ha : coinsIsSorted a = true)
    (hb : coinsIsSorted b = true) :
    ∃ r, safeAdd a b = some r ∧ coinsIsSorted r = true ∧
      ∀ d, amountOf r d = amountOf a d + amountOf b d := by
  refine ⟨coalesce (List.insertionSort coinLe (a ++ b)), ?_, ?_, ?_⟩
  · simp [safeAdd, ha, hb]
  · exact (coinsIsSorted_iff_pairwise _).mpr
      (pairwise_coalesce (List.sorted_insertionSort coinLe (a ++ b)))
  · intro d
    rw [amountOf_coalesce, amountOf_perm (List.perm_insertionSort coinLe (a ++ b)) d,
      amountOf_append]

theorem calcSupplyAux_spec :
    ∀ (bals : List Balance) (acc : List Coin), coinsIsSorted acc = true →
      (∀ b ∈ bals, coinsIsSorted b.Coins = true) →
      ∃ s, calcSupplyAux acc bals = some s ∧ coinsIsSorted s = true ∧
        ∀ d, amountOf s d = amountOf acc d + sumBalances bals d := by
  intro bals
  induction bals with
  | nil =>
    intro acc hacc _
    exact ⟨acc, rfl, hacc, by simp [sumBalances]⟩
  | cons b rest ih =>
    intro acc hacc hb
    obtain ⟨r, hr, hrs, hra⟩ := safeAdd_ok hacc (hb b (by simp))
    obtain ⟨s, hs, hss, hsa⟩ := ih r hrs (fun x hx => hb x (by simp [hx]))
    refine ⟨s, ?_, hss, ?_⟩
    · rw [calcSupplyAux, hr]
      exact hs
    · intro d
      rw [hsa d, hra d]
      simp only [sumBalances, List.map_cons, List.sum_cons]
      omega

/-- C1: for every list of account balances whose coin lists are valid
(denom-sorted, as the coin-set representation requires) and every bonded
coin, computing the total supply after appending the bonded-pool balance
(`calculateTotalSupply` applied to `addBondedModuleAccountToFundedBalances`)
succeeds and yields exactly the coin-wise integer sum of all account
balances plus the bonded amount in the bond denom. -/
theorem calculateTotalSupply_after_addBonded (bals : List Balance) (bonded : Coin)
    (h : ∀ b ∈ bals, coinsIsSorted b.Coins = true) :
    ∃ s, calculateTotalSupply (addBondedModuleAccountToFundedBalances bals bonded) = some s ∧
      ∀ d, amountOf s d =
        sumBalances bals d + (if bonded.Denom = d then bonded.Amount else 0) := by
  have hall : ∀ b ∈ addBondedModuleAccountToFundedBalances bals bonded,
      coinsIsSorted b.Coins = true := by
    intro b hb
    rcases List.mem_append.mp hb with h1 | h1
    · exact h b h1
    · rw [List.mem_singleton.mp h1]
      rfl
  obtain ⟨s, hs, _, hamt⟩ := calcSupplyAux_spec _ [] rfl hall
  refine ⟨s, hs, ?_⟩
  intro d
  rw [hamt d]
  simp only [addBondedModuleAccountToFundedBalances, sumBalances, amountOf_nil,
    List.map_append, List.sum_append, List.map_cons, List.map_nil, List.sum_cons,
    List.sum_nil, amountOf_cons]
  split_ifs <;> omega

/-- Witness for C1 at a concrete one-account balance list. -/
theorem calculateTotalSupply_after_addBonded_witness :
    (∀ b ∈ balsW, coinsIsSorted b.Coins = true) ∧
    (∃ s, calculateTotalSupply (addBondedModuleAccountToFundedBalances balsW bondedW) = some s ∧
      ∀ d, amountOf s d =
        sumBalances balsW d + (if bondedW.Denom = d then bondedW.Amount else 0)) :=
  ⟨by decide, calculateTotalSupply_after_addBonded balsW bondedW (by decide)⟩

/-- C4: `ConversionFactor` returns exactly 1 for `EighteenDecimals` and
exactly `10^12` for `SixDecimals`, and for every other `Decimals` value it
silently returns 1, the 18-decimal factor, performing no validation. -/
theorem conversionFactor_values (d : Decimals) (h6 : d ≠ SixDecimals)
    (_h18 : d ≠ EighteenDecimals) :
    Decimals.ConversionFactor EighteenDecimals = 1 ∧
    Decimals.ConversionFactor SixDecimals = 10 ^ 12 ∧
    Decimals.ConversionFactor d = 1 := by
  refine ⟨by decide, by decide, ?_⟩
  unfold Decimals.ConversionFactor
  rw [if_neg h6]

/-- Witness for C4 at the unsupported value 7. -/
theorem conversionFactor_values_witness :
    (7 : Decimals) ≠ SixDecimals ∧ (7 : Decimals) ≠ EighteenDecimals ∧
    (Decimals.ConversionFactor EighteenDecimals = 1 ∧
     Decimals.ConversionFactor SixDecimals = 10 ^ 12 ∧
     Decimals.ConversionFactor 7 = 1) :=
  ⟨by decide, by decide, conversionFactor_values 7 (by decide) (by decide)⟩

/-- C9: `Validate` succeeds exactly on the two supported precisions 6 and 18,
and on every other value fails with the unsupported-decimals error naming the
value, never silently coercing it. -/
theorem validate_supported_iff (d : Decimals) :
    (Decimals.Validate d = Except.ok () ↔ d = SixDecimals ∨ d = EighteenDecimals) ∧
    (d ≠ SixDecimals → d ≠ EighteenDecimals →
      Decimals.Validate d = Except.error ("received unsupported decimals: " ++ toString d)) := by
  unfold Decimals.Validate
  constructor
  · split_ifs with h1 h2
    · simp [h1]
    · simp [h2]
    · simp [h1, h2]
  · intro h6 h18
    rw [if_neg h6, if_neg h18]

/-- Witness for C9 at the unsupported value 7. -/
theorem validate_supported_iff_witness :
    Decimals.Validate 7 = Except.error ("received unsupported decimals: " ++ toString 7) :=
  (validate_supported_iff 7).2 (by decide) (by decide)

theorem createStakingValidator_eq (val : TmValidator) (amt : Int)
    (op : Option AccAddress) :
    createStakingValidator val amt op = Except.ok (stakingValidatorOf val amt op) := rfl

theorem randomLoop_spec (amt : Int) (tmVals : List TmValidator) :
    ∃ vs, createStakingValidatorsWithRandomOperator tmVals amt = GoResult.ok vs ∧
      vs.length = tmVals.length ∧
      ∀ v ∈ vs, v.Status = BondStatus.Bonded ∧ v.UnbondingHeight = 0 ∧
        v.UnbondingTime = 0 ∧
        v.Commission = ⟨LegacyNewDecWithPrec 5 2, LegacyNewDecWithPrec 2 1,
          LegacyNewDecWithPrec 5 2⟩ ∧
        v.Tokens = amt := by
  induction tmVals with
  | nil => exact ⟨[], rfl, rfl, by simp⟩
  | cons val rest ih =>
    obtain ⟨vs, hvs, hlen, hprops⟩ := ih
    refine ⟨stakingValidatorOf val amt none :: vs, ?_, by simp [hlen], ?_⟩
    · simp only [createStakingValidatorsWithRandomOperator, createStakingValidator_eq, hvs]
    · intro v hv
      rcases List.mem_cons.mp hv with rfl | hv2
      · exact ⟨rfl, rfl, rfl, rfl, rfl⟩
      · exact hprops v hv2

theorem specificLoop_spec (amt : Int) (tmVals : List TmValidator) :
    ∀ ops : List AccAddress,
      ∃ vs, specificOperatorLoop amt tmVals ops = GoResult.ok vs ∧
        ∀ v ∈ vs, v.Status = BondStatus.Bonded ∧ v.UnbondingHeight = 0 ∧
          v.UnbondingTime = 0 ∧
          v.Commission = ⟨LegacyNewDecWithPrec 5 2, LegacyNewDecWithPrec 2 1,
            LegacyNewDecWithPrec 5 2⟩ ∧
          v.Tokens = amt := by
  induction tmVals with
  | nil =>
    intro ops
    cases ops with
    | nil => exact ⟨[], rfl, by simp⟩
    | cons op restOps => exact ⟨[], rfl, by simp⟩
  | cons val rest ih =>
    intro ops
    cases ops with
    | nil => exact ⟨[], rfl, by simp⟩
    | cons op restOps =>
      obtain ⟨vs, hvs, hprops⟩ := ih restOps
      refine ⟨stakingValidatorOf val amt (some op) :: vs, ?_, ?_⟩
      · simp only [specificOperatorLoop, createStakingValidator_eq, hvs]
      · intro v hv
        rcases List.mem_cons.mp hv with rfl | hv2
        · exact ⟨rfl, rfl, rfl, rfl, rfl⟩
        · exact hprops v hv2

/-- C6: for every list of consensus validators, `createStakingValidators`
with an empty operator-address list produces exactly one staking validator
per input validator, each with `Bonded` status, unbonding height 0, zero
unbonding time, and the fixed default commission 5%/20%/5%. -/
theorem createStakingValidators_emptyOps (tmVals : List TmValidator) (amt : Int) :
    ∃ vs, createStakingValidators tmVals amt [] = GoResult.ok vs ∧
      vs.length = tmVals.length ∧
      ∀ v ∈ vs, v.Status = BondStatus.Bonded ∧ v.UnbondingHeight = 0 ∧
        v.UnbondingTime = 0 ∧
        v.Commission = ⟨LegacyNewDecWithPrec 5 2, LegacyNewDecWithPrec 2 1,
          LegacyNewDecWithPrec 5 2⟩ := by
  obtain ⟨vs, hvs, hlen, hp⟩ := randomLoop_spec amt tmVals
  refine ⟨vs, by simpa [createStakingValidators] using hvs, hlen, ?_⟩
  intro v hv
  obtain ⟨h1, h2, h3, h4, _⟩ := hp v hv
  exact ⟨h1, h2, h3, h4⟩

/-- C7: for every non-empty operator-address list whose length differs from
the consensus-validator list's, `createStakingValidators` aborts fatally with
the mismatch message before producing any validator record, rather than
returning a partial result or a recoverable error. -/
theorem createStakingValidators_lengthMismatch_fatal (tmVals : List TmValidator)
    (amt : Int) (ops : List AccAddress) (hne : ops ≠ [])
    (hlen : ops.length ≠ tmVals.length) :
    createStakingValidators tmVals amt ops =
      GoResult.fatal ("provided " ++ toString ops.length ++
        " validator operator keys but need " ++ toString tmVals.length ++ "!") := by
  have h0 : ¬ ops.length = 0 := by
    intro h
    exact hne (List.length_eq_zero.mp h)
  rw [createStakingValidators, if_neg h0,
    createStakingValidatorsWithSpecificOperator, if_pos hlen]

/-- Witness for C7 at one validator and two operator addresses. -/
theorem createStakingValidators_lengthMismatch_fatal_witness :
    ([[3], [4]] : List AccAddress) ≠ [] ∧
    ([[3], [4]] : List AccAddress).length ≠ [tmValC].length ∧
    createStakingValidators [tmValC] 1 [[3], [4]] =
      GoResult.fatal ("provided " ++ toString ([[3], [4]] : List AccAddress).length ++
        " validator operator keys but need " ++ toString [tmValC].length ++ "!") :=
  ⟨by decide, by decide,
    createStakingValidators_lengthMismatch_fatal [tmValC] 1 [[3], [4]]
      (by decide) (by decide)⟩

/-- C3 counterexample: the validator `createStakingValidators` builds has
max rate 20% and max-change-rate 5%, so the claimed chain
`rate ≤ max-rate ≤ max-change-rate` fails at its second inequality on a
concrete produced record. -/
theorem stakingValidator_commission_cex :
    createStakingValidators [tmValC] 1 [] = GoResult.ok [valC] ∧
    ¬(valC.Commission.MaxRate ≤ valC.Commission.MaxChangeRate) := by
  exact ⟨by decide, by decide⟩

/-- C3 (amended): every staking validator record produced by
`createStakingValidators` for a non-negative bonded amount has bonded tokens
≥ 0 and a commission schedule satisfying rate ≤ max-rate and
max-change-rate ≤ max-rate. -/
theorem createStakingValidators_invariants (tmVals : List TmValidator) (amt : Int)
    (ops : List AccAddress) (vs : List Validator) (hamt : 0 ≤ amt)
    (h : createStakingValidators tmVals amt ops = GoResult.ok vs) :
    ∀ v ∈ vs, 0 ≤ v.Tokens ∧ v.Commission.Rate ≤ v.Commission.MaxRate ∧
      v.Commission.MaxChangeRate ≤ v.Commission.MaxRate := by
  rw [createStakingValidators] at h
  by_cases h0 : ops.length = 0
  · rw [if_pos h0] at h
    obtain ⟨vs2, hvs2, _, hp⟩ := randomLoop_spec amt tmVals
    rw [hvs2] at h
    injection h with h1
    subst h1
    intro v hv
    obtain ⟨_, _, _, hc, ht⟩ := hp v hv
    refine ⟨ht ▸ hamt, ?_, ?_⟩
    · rw [hc]
      decide
    · rw [hc]
      decide
  · rw [if_neg h0, createStakingValidatorsWithSpecificOperator] at h
    by_cases hlen : ops.length ≠ tmVals.length
    · rw [if_pos hlen] at h
      cases h
    · rw [if_neg hlen] at h
      obtain ⟨vs2, hvs2, hp⟩ := specificLoop_spec amt tmVals ops
      rw [hvs2] at h
      injection h with h1
      subst h1
      intro v hv
      obtain ⟨_, _, _, hc, ht⟩ := hp v hv
      refine ⟨ht ▸ hamt, ?_, ?_⟩
      · rw [hc]
        decide
      · rw [hc]
        decide

/-- Witness for the amended C3 at one validator and bonded amount 1. -/
theorem createStakingValidators_invariants_witness :
    (0 : Int) ≤ 1 ∧ createStakingValidators [tmValC] 1 [] = GoResult.ok [valC] ∧
    (∀ v ∈ [valC], 0 ≤ v.Tokens ∧ v.Commission.Rate ≤ v.Commission.MaxRate ∧
      v.Commission.MaxChangeRate ≤ v.Commission.MaxRate) :=
  ⟨by decide, by decide,
    createStakingValidators_invariants [tmValC] 1 [] [valC] (by decide) (by decide)⟩

theorem sum_map_two (l : List Nat) : (l.map (fun _ => 2)).sum = 2 * l.length := by
  induction l with
  | nil => rfl
  | cons x t ih =>
    simp [ih]
    ring

/-- C5: for every set of accounts and denom-to-decimals mapping (with
distinct denom keys, as a Go map has), each account's coin list produced by
`createBalances` lists denoms in strictly increasing lexical order with no
duplicates, contains exactly one coin per denom of the mapping, and each
coin's amount is the initial amount scaled by that denom's own conversion
factor. -/
theorem createBalances_canonical (accounts : List AccAddress)
    (dd : List (String × Decimals)) (hnd : (dd.map Prod.fst).Nodup) :
    ∀ bal ∈ createBalances accounts dd,
      (bal.Coins.map Coin.Denom).Pairwise (fun a b => strLtB a b = true) ∧
      (bal.Coins.map Coin.Denom).Perm (dd.map Prod.fst) ∧
      ∀ c ∈ bal.Coins, c.Amount = GetInitialAmount (lookupDecimals dd c.Denom) := by
  intro bal hbal
  have hco : bal.Coins = (List.insertionSort strLe (dd.map Prod.fst)).map
      (fun denom => Coin.mk denom (GetInitialAmount (lookupDecimals dd denom))) := by
    simp only [createBalances] at hbal
    obtain ⟨acc, _, rfl⟩ := List.mem_map.mp hbal
    rfl
  have hdenoms : bal.Coins.map Coin.Denom =
      List.insertionSort strLe (dd.map Prod.fst) := by
    rw [hco, List.map_map]
    exact List.map_id _
  refine ⟨?_, ?_, ?_⟩
  · rw [hdenoms]
    have hsorted : (List.insertionSort strLe (dd.map Prod.fst)).Pairwise strLe :=
      List.sorted_insertionSort strLe (dd.map Prod.fst)
    have hnd2 : (List.insertionSort strLe (dd.map Prod.fst)).Nodup :=
      (List.perm_insertionSort strLe (dd.map Prod.fst)).nodup_iff.mpr hnd
    exact (hsorted.and hnd2).imp (fun h => strLt_of_le_of_ne h.1 h.2)
  · rw [hdenoms]
    exact List.perm_insertionSort strLe (dd.map Prod.fst)
  · intro c hc
    rw [hco] at hc
    obtain ⟨denom, _, rfl⟩ := List.mem_map.mp hc
    rfl

/-- Witness for C5 at one account and a deliberately unsorted two-denom
mapping. -/
theorem createBalances_canonical_witness :
    (ddW.map Prod.fst).Nodup ∧ balW ∈ createBalances accW ddW ∧
    ((balW.Coins.map Coin.Denom).Pairwise (fun a b => strLtB a b = true) ∧
     (balW.Coins.map Coin.Denom).Perm (ddW.map Prod.fst) ∧
     ∀ c ∈ balW.Coins, c.Amount = GetInitialAmount (lookupDecimals ddW c.Denom)) :=
  ⟨by decide, by decide, createBalances_canonical accW ddW (by decide) balW (by decide)⟩

/-- C10: `getAccAddrsFromBalances` casts each balance's address string's raw
bytes back to an account address without bech32 decoding, so composing
`createBalances` (which stores bech32 `String()` addresses) with it returns
the bytes of each bech32 string — for 20-byte input addresses the round trip
never recovers the inputs. -/
theorem getAccAddrsFromBalances_roundTrip (accounts : List AccAddress)
    (dd : List (String × Decimals)) (hne : accounts ≠ [])
    (h20 : ∀ a ∈ accounts, a.length = 20) :
    getAccAddrsFromBalances (createBalances accounts dd) =
      accounts.map (fun a => stringBytes (accAddressString a)) ∧
    getAccAddrsFromBalances (createBalances accounts dd) ≠ accounts := by
  have heq : getAccAddrsFromBalances (createBalances accounts dd) =
      accounts.map (fun a => stringBytes (accAddressString a)) := by
    simp only [getAccAddrsFromBalances, createBalances, List.map_map]
    rfl
  refine ⟨heq, ?_⟩
  intro hcontra
  rw [heq] at hcontra
  cases accounts with
  | nil => exact hne rfl
  | cons a rest =>
    simp only [List.map_cons, List.cons.injEq] at hcontra
    have hhead : stringBytes (accAddressString a) = a := hcontra.1
    have hlen : (stringBytes (accAddressString a)).length = 6 + 2 * a.length := by
      have hdata : (accAddressString a).data =
          "evmos1".data ++ (a.map byteHexChars).flatten := rfl
      rw [stringBytes, List.length_map, hdata, List.length_append,
        List.length_flatten, List.map_map]
      have hmap : (a.map (List.length ∘ byteHexChars)) = a.map (fun _ => 2) := rfl
      rw [hmap, sum_map_two a]
      rfl
    have h20a : a.length = 20 := h20 a (by simp)
    have hcl := congrArg List.length hhead
    rw [hlen, h20a] at hcl
    omega

/-- Witness for C10 at one 20-byte account address. -/
theorem getAccAddrsFromBalances_roundTrip_witness :
    ([accT] : List AccAddress) ≠ [] ∧ (∀ a ∈ [accT], a.length = 20) ∧
    (getAccAddrsFromBalances (createBalances [accT] [("aatom", 6)]) =
      [accT].map (fun a => stringBytes (accAddressString a)) ∧
     getAccAddrsFromBalances (createBalances [accT] [("aatom", 6)]) ≠ [accT]) :=
  ⟨by decide, by decide,
    getAccAddrsFromBalances_roundTrip [accT] [("aatom", 6)] (by decide) (by decide)⟩

/-- C2 counterexample: applying a `"bank"` override of a wrong type (`int`)
to a genesis that holds a prior `"bank"` entry returns the type-mismatch
error together with the nil mapping, in which the prior `"bank"` entry does
not appear — refuting the claim that the returned mapping still holds it. -/
theorem setBankGenesisState_wrongType_cex :
    customizeGenesis [("bank", OvVal.other "int")] gs0 =
      SetterOutcome.ret [] (some "invalid type int for bank module genesis state") ∧
    lookupGen ([] : GenesisState) "bank" = none ∧
    lookupGen gs0 "bank" = some (GenBlob.bank bankGen0) := by
  exact ⟨by decide, rfl, rfl⟩

/-- C2 (amended): applying a `"bank"` override whose value is not of the bank
genesis type returns a reported (non-fatal) type-mismatch error naming
`"bank"` and the received type; the prior mapping is not mutated, but the
mapping value returned alongside the error is the nil (empty) mapping, not
the prior mapping. -/
theorem setBankGenesisState_wrongType (gs : GenesisState) (v : OvVal)
    (h : ∀ g, v ≠ OvVal.bankGen g) :
    customizeGenesis [("bank", v)] gs =
      SetterOutcome.ret [] (some ("invalid type " ++ OvVal.typeName v ++
        " for bank module genesis state")) := by
  cases v with
  | bankGen g => exact absurd rfl (h g)
  | authGen g => rfl
  | modGen m p => rfl
  | other t => rfl

/-- Witness for the amended C2 at a wrong-typed (`int`) override value. -/
theorem setBankGenesisState_wrongType_witness :
    (∀ g, OvVal.other "int" ≠ OvVal.bankGen g) ∧
    customizeGenesis [("bank", OvVal.other "int")] [] =
      SetterOutcome.ret [] (some ("invalid type " ++
        OvVal.typeName (OvVal.other "int") ++ " for bank module genesis state")) :=
  ⟨(fun _g hg => nomatch hg),
    setBankGenesisState_wrongType [] (OvVal.other "int") (fun _g hg => nomatch hg)⟩

/-- C8: during override application, a module name with no registered setter
in `genesisSetupFunctions` is fatal: `customizeGenesis` panics with the
not-found message instead of returning an error, for every genesis mapping,
override value, and remaining override entries. -/
theorem customizeGenesis_unknownModule_fatal (gs : GenesisState) (m : String)
    (v : OvVal) (rest : List (String × OvVal)) (h : m ∉ genesisSetupModules) :
    customizeGenesis ((m, v) :: rest) gs =
      SetterOutcome.fatal ("module " ++ m ++ " not found in genesis setup functions") := by
  have hc : genesisSetupModules.contains m = false := by
    simpa using h
  simp only [customizeGenesis, hc, Bool.false_eq_true, if_false]

/-- Witness for C8 at the unregistered module name `"bogus"`. -/
theorem customizeGenesis_unknownModule_fatal_witness :
    ("bogus" ∉ genesisSetupModules) ∧
    customizeGenesis [("bogus", OvVal.other "int")] [] =
      SetterOutcome.fatal ("module " ++ "bogus" ++ " not found in genesis setup functions") :=
  ⟨by decide,
    customizeGenesis_unknownModule_fatal [] "bogus" (OvVal.other "int") [] (by decide)⟩

end EvmCosmos
